import Mathlib

/-!
Verification of the dot-path document store of SoftLanceNPM.

The definitions below are a shallow embedding of
`src/lib/database/JsonDatabase.ts` (file backend) and
`src/lib/database/MongoDatabase.ts` (remote backend).

Modelling conventions:
* JavaScript runtime values are the inductive `Value`.  JS numbers are
  modelled as `Int` (the claims only use integer arithmetic).  `undefined`
  is modelled as `Option.none` where it can occur (property reads,
  operation results); it is never stored, matching the source.
* Arrays carry, besides their elements, the list of non-index ("expando")
  string properties a JS program can attach to an array object; JSON
  serialisation (`jsonNorm`) drops them, exactly as `JSON.stringify` does.
* Objects are association lists in insertion order (JS own-property
  order for string keys).  Member access is embedded as own-property
  lookup; JS additionally resolves inherited prototype members
  (`toString`, `__proto__`, ...), so every theorem whose conclusion
  depends on a property being *absent*, or on an assignment creating an
  own property, carries an explicit hypothesis keeping the relevant
  segment outside the inherited names (`objectProtoNames`,
  `primChainNames`, and the `"__proto__"` accessor for writes).  On the
  remaining instances own-property lookup agrees with the source:
  inherited members are all functions or the `__proto__` accessor, and
  the write-resolve guard `typeof current[k] !== "object"` replaces a
  function exactly as it replaces `undefined`.
* Each public operation re-reads the persisted document and writes it
  back; data coming from `JSON.parse` is tree shaped, so the in-place
  mutations of the source are embedded as functional rebuilds.
-/

namespace SoftLance

/-- The JS value universe used by the store: string, number, boolean,
`null`, plain object (insertion-ordered fields) and array (elements plus
possible expando properties). -/
inductive Value : Type
  | vstr  (s : String)
  | vnum  (n : Int)
  | vbool (b : Bool)
  | vnull
  | vobj  (fields : List (String × Value))
  | varr  (elems : List Value) (props : List (String × Value))
deriving Inhabited

namespace Value

/-- JS `typeof v === "object"` (true for objects, arrays and `null`). -/
def isObjType : Value → Bool
  | .vobj _ => true
  | .varr _ _ => true
  | .vnull => true
  | _ => false

/-- Is the value exactly JS `null`? -/
def isNull : Value → Bool
  | .vnull => true
  | _ => false

/-- JS truthiness of a value. -/
def truthy : Value → Bool
  | .vstr s => !s.isEmpty
  | .vnum n => n != 0
  | .vbool b => b
  | .vnull => false
  | .vobj _ => true
  | .varr _ _ => true

end Value

/-- Association-list lookup: JS property read on a plain object. -/
def lookupF : List (String × Value) → String → Option Value
  | [], _ => none
  | (k', v') :: rest, k => if k' = k then some v' else lookupF rest k

/-- Association-list store: JS property write on a plain object.  An
existing key keeps its position, a new key is appended (JS insertion
order). -/
def setF : List (String × Value) → String → Value → List (String × Value)
  | [], k, v => [(k, v)]
  | (k', v') :: rest, k, v =>
      if k' = k then (k, v) :: rest else (k', v') :: setF rest k v

/-- Association-list delete: JS `delete obj[k]`. -/
def delF (f : List (String × Value)) (k : String) : List (String × Value) :=
  f.filter (fun p => p.1 ≠ k)

/-- The numeric value of a decimal digit string. -/
def digitsVal (cs : List Char) : Nat :=
  cs.foldl (fun a c => a * 10 + (c.toNat - 48)) 0

/-- A string is a JS array index exactly when it is the canonical decimal
representation of a natural number (`"0"`, `"1"`, ... but not `"00"` or
`"+1"`).  JS additionally caps indices at `2^32 - 2`; the stores never
hold arrays anywhere near that bound, so the cap is not modelled. -/
def parseIndex (s : String) : Option Nat :=
  match s.data with
  | [] => none
  | c :: cs =>
      if (c :: cs).all Char.isDigit && (c ≠ '0' || cs = []) then
        some (digitsVal (c :: cs))
      else none

/-- JS property read `cur[k]`, embedded as own-property access, with
`undefined` as `none`.  Objects look the key up among their own fields;
arrays expose `length`, their elements under canonical index strings,
and expando properties; strings expose `length` and their characters.
Reading a property of `null` throws a `TypeError` that every operation
catches and turns into its "no value" result, so it is embedded as
`none`.  JS would additionally resolve inherited prototype members
(e.g. `(5)["toString"]` is `Number.prototype.toString`, not
`undefined`); the embedding returns `none` there, and every theorem
concluding that a read is absent therefore restricts the segment to lie
outside the inherited names (`primChainNames`, `objectProtoNames`). -/
def propGet : Value → String → Option Value
  | .vobj f, k => lookupF f k
  | .varr e p, k =>
      if k = "length" then some (.vnum e.length)
      else
        match parseIndex k with
        | some i => if h : i < e.length then some (e.get ⟨i, h⟩) else lookupF p k
        | none => lookupF p k
  | .vstr s, k =>
      if k = "length" then some (.vnum s.length)
      else
        match parseIndex k with
        | some i =>
            if h : i < s.data.length then some (.vstr (String.mk [s.data.get ⟨i, h⟩]))
            else none
        | none => none
  | _, _ => none

/-- JS `k in cur` for the values on which the source uses it (guarded by
`typeof cur === "object"` and a null check), embedded as own-property
lookup; for arrays this covers `length`, in-range indices and expando
properties.  The JS operator also finds inherited members
(`"toString" in {}` is `true`); the theorems below only ever rely on
`propIn` at own keys and in-range indices, where the two agree. -/
def propIn : Value → String → Bool
  | .vobj f, k => (lookupF f k).isSome
  | .varr e p, k =>
      k = "length" ||
      (match parseIndex k with
       | some i => decide (i < e.length) || (lookupF p k).isSome
       | none => (lookupF p k).isSome)
  | _, _ => false

/-- JS property write `cur[k] = v`, embedded as an own-property write.
The source only ever assigns into objects and arrays.  On arrays a
canonical in-range index replaces the element, an index beyond the
length extends the array (the skipped holes serialise as `null`), any
other key becomes an expando property, and an assignment to `"length"`
resizes (a non-numeric length, which would throw a `RangeError` and
abort the operation before any write-back, is embedded as the
identity).  Writes to primitives are silent no-ops in non-strict JS and
unreachable in the source.  One JS case is not represented: assigning
`"__proto__"` on a plain object fires the inherited
`Object.prototype.__proto__` accessor and creates no own property;
theorems concluding that a write landed therefore exclude that segment
name by hypothesis.  Every other inherited member of `Object.prototype`
is a writable data property, so shadowing own-property creation — what
this function does — is exactly what JS does. -/
def propSet : Value → String → Value → Value
  | .vobj f, k, v => .vobj (setF f k v)
  | .varr e p, k, v =>
      if k = "length" then
        match v with
        | .vnum n => .varr ((e.take n.toNat) ++ List.replicate (n.toNat - e.length) .vnull) p
        | _ => .varr e p
      else
        match parseIndex k with
        | some i =>
            if i < e.length then .varr (e.set i v) p
            else .varr (e ++ List.replicate (i - e.length) .vnull ++ [v]) p
        | none => .varr e (setF p k v)
  | w, _, _ => w

/-- JS `delete cur[k]`.  Deleting an array element leaves a hole, which
`JSON.stringify` serialises as `null`. -/
def propDelete : Value → String → Value
  | .vobj f, k => .vobj (delF f k)
  | .varr e p, k =>
      if k = "length" then .varr e p
      else
        match parseIndex k with
        | some i => if i < e.length then .varr (e.set i .vnull) p else .varr e (delF p k)
        | none => .varr e (delF p k)
  | w, _ => w

mutual

/-- `deepEqual` as written (identically) in `JsonDatabase.ts:128` and
`MongoDatabase.ts:66`: primitives by value, objects by equal key sets and
recursively equal field values, arrays additionally positionally.  The
`obj1 === obj2` fast path of the source is value equality on primitives
and reference equality on objects; the store always compares freshly
deserialised data against caller-supplied values, so the reference case
is never `true` and is not represented. -/
def deepEqual : Value → Value → Bool
  | .vstr a, .vstr b => a = b
  | .vnum a, .vnum b => a = b
  | .vbool a, .vbool b => a = b
  | .vnull, .vnull => true
  | .vobj f1, .vobj f2 => f1.length = f2.length && deepEqualFields f1 f2
  | .varr a1 p1, .varr a2 p2 =>
      a1.length = a2.length && p1.length = p2.length &&
      deepEqualElems a1 a2 && deepEqualFields p1 p2
  | _, _ => false

/-- The `for (const key of keys1)` loop of `deepEqual`: every key of the
first field list must exist in the second with a `deepEqual` value. -/
def deepEqualFields : List (String × Value) → List (String × Value) → Bool
  | [], _ => true
  | (k, v) :: rest, f2 =>
      (match lookupF f2 k with
       | some v2 => deepEqual v v2
       | none => false) && deepEqualFields rest f2

/-- Positional comparison of array elements (index keys of the two
arrays); the length equality is checked separately. -/
def deepEqualElems : List Value → List Value → Bool
  | [], _ => true
  | _ :: _, [] => true
  | v :: r, w :: s => deepEqual v w && deepEqualElems r s
end

/-- `Object.keys` paired with the property values: an object yields its
fields, an array its elements under canonical index keys followed by its
expando properties (`length` is not enumerable). -/
def fieldsOf : Value → List (String × Value)
  | .vobj f => f
  | .varr e p => (e.mapIdx fun i x => (Nat.repr i, x)) ++ p
  | _ => []

/-- The key loop of `partialMatch`: every enumerated key of the probe
must exist in the target (`key in target`) with a `deepEqual` value. -/
def subsetFields (target : Value) : List (String × Value) → Bool
  | [] => true
  | (k, pv) :: rest =>
      propIn target k &&
      (match propGet target k with
       | some tv => deepEqual tv pv
       | none => false) &&
      subsetFields target rest

/-- `partialMatch(target, partial)` from `JsonDatabase.ts:152` and
`MongoDatabase.ts:90`: non-objects fall back to `deepEqual`; `null`
operands never match; otherwise every key of the probe must exist in the
target with a `deepEqual` value. -/
def subsetMatch (target part : Value) : Bool :=
  if !target.isObjType || !part.isObjType then deepEqual target part
  else if target.isNull || part.isNull then false
  else subsetFields target (fieldsOf part)

/-- JS strict equality `a === b` between an array element (freshly
deserialised) and the caller-supplied value: primitives compare by value,
distinct object allocations are never identical. -/
def strictEq : Value → Value → Bool
  | .vstr a, .vstr b => a = b
  | .vnum a, .vnum b => a = b
  | .vbool a, .vbool b => a = b
  | .vnull, .vnull => true
  | _, _ => false

/-- The per-element removal test of `unpush`/`pull`: an object value
(not `null`) removes elements that are `deepEqual` or a partial match;
any other value removes strictly equal elements. -/
def elemMatches (value e : Value) : Bool :=
  if value.isObjType && !value.isNull then deepEqual e value || subsetMatch e value
  else strictEq e value

/-- The removal loop of `unpush` (`JsonDatabase.ts:625`) and `pull`
(`MongoDatabase.ts:479`): iterate from the highest index downward and
splice out every matching element.  Processing the tail (the higher
indices) before deciding the head is that same downward scan, since each
removal decision depends only on the element. -/
def spliceRemove (value : Value) : List Value → List Value × Nat
  | [] => ([], 0)
  | e :: rest =>
      let r := spliceRemove value rest
      if elemMatches value e then (r.1, r.2 + 1) else (e :: r.1, r.2)

mutual

/-- `JSON.stringify` followed by `JSON.parse`: the persistence boundary
of the file backend.  Plain values survive unchanged; expando properties
of arrays are dropped. -/
def jsonNorm : Value → Value
  | .vobj f => .vobj (jsonNormF f)
  | .varr e _ => .varr (jsonNormL e) []
  | v => v

def jsonNormF : List (String × Value) → List (String × Value)
  | [] => []
  | (k, v) :: r => (k, jsonNorm v) :: jsonNormF r

def jsonNormL : List Value → List Value
  | [] => []
  | v :: r => jsonNorm v :: jsonNormL r
end

/-- A value that the persistence boundary preserves: it contains no
array expando properties. -/
def isJsonNormal (v : Value) : Prop := jsonNorm v = v

/-- `key.split(".")` of JS on a character list: splitting on `"."`,
where an empty string yields the single segment `[""]` and consecutive,
leading or trailing dots yield empty segments. -/
def splitSegs : List Char → List (List Char)
  | [] => [[]]
  | c :: cs =>
      let r := splitSegs cs
      if c = '.' then [] :: r
      else
        match r with
        | s :: t => (c :: s) :: t
        | [] => [[c]]

/-- The dotted key split into its path segments. -/
def splitKey (k : String) : List String :=
  (splitSegs k.data).map fun cs => String.mk cs

/-- The key check every operation performs:
`!key || typeof key !== "string"`.  Keys are statically strings in the
embedding, and the only falsy string is the empty one. -/
def validKey (k : String) : Bool := !k.isEmpty

/-- The write-resolving traversal shared by `set`, `add`, `subtract` and
`push`: follow each intermediate segment, replacing a missing, falsy or
non-object current value (`!current[k] || typeof current[k] !== "object"`)
with a fresh empty object, then apply the final action at the last
segment.  The in-place mutation through the `current` alias is embedded
by rebuilding the traversed branch. -/
def createChild (c : Option Value) : Value :=
  match c with
  | some w => if w.truthy && w.isObjType then w else .vobj []
  | none => .vobj []

/-- `JsonDatabase.set` after validation: write-resolve the path and
assign the value at the final segment. -/
def setPath : Value → List String → Value → Value
  | cur, [], _ => cur
  | cur, [k], v => propSet cur k v
  | cur, k :: k2 :: rest, v =>
      propSet cur k (setPath (createChild (propGet cur k)) (k2 :: rest) v)

/-- `JsonDatabase.get` after validation: follow every segment with a
plain property read, answering "not found" as soon as one read yields
`undefined`. -/
def getPath : Value → List String → Option Value
  | cur, [] => some cur
  | cur, k :: rest =>
      match propGet cur k with
      | some nxt => getPath nxt rest
      | none => none

/-- `JsonDatabase.has`: at every segment the current value must be a
non-null object (`typeof`) that owns the key (`k in current`). -/
def hasPath : Value → List String → Bool
  | _, [] => true
  | cur, k :: rest =>
      if cur.isNull || !cur.isObjType then false
      else if !propIn cur k then false
      else
        match propGet cur k with
        | some nxt => hasPath nxt rest
        | none => false

/-- `JsonDatabase.add` after validation.  `none` means the operation
returned without calling `WriteDatabase`, leaving the persisted document
untouched (in particular the intermediate objects created during the
traversal are discarded). -/
def addPath : Value → List String → Int → Option Value
  | _, [], _ => none
  | cur, [k], n =>
      match propGet cur k with
      | none => some (propSet cur k (.vnum (0 + n)))
      | some (.vnum m) => some (propSet cur k (.vnum (m + n)))
      | some _ => none
  | cur, k :: k2 :: rest, n =>
      match addPath (createChild (propGet cur k)) (k2 :: rest) n with
      | some d => some (propSet cur k d)
      | none => none

/-- `JsonDatabase.subtract` after validation; the absent case stores
`0 - value`. -/
def subtractPath : Value → List String → Int → Option Value
  | _, [], _ => none
  | cur, [k], n =>
      match propGet cur k with
      | none => some (propSet cur k (.vnum (0 - n)))
      | some (.vnum m) => some (propSet cur k (.vnum (m - n)))
      | some _ => none
  | cur, k :: k2 :: rest, n =>
      match subtractPath (createChild (propGet cur k)) (k2 :: rest) n with
      | some d => some (propSet cur k d)
      | none => none

/-- `JsonDatabase.delete` after validation: a non-creating traversal
(`!current[k] || typeof current[k] !== "object"` reports "does not
exist"), then `delete current[finalKey]` when the final segment is owned.
`none` means no write happened. -/
def deletePath : Value → List String → Option Value
  | _, [] => none
  | cur, [k] => if propIn cur k then some (propDelete cur k) else none
  | cur, k :: k2 :: rest =>
      match propGet cur k with
      | some c =>
          if c.truthy && c.isObjType then
            match deletePath c (k2 :: rest) with
            | some d => some (propSet cur k d)
            | none => none
          else none
      | none => none

/-- `JsonDatabase.push` after validation: write-resolve, replace a
missing or non-array final value with a fresh array, then append. -/
def pushPath : Value → List String → Value → Value
  | cur, [], _ => cur
  | cur, [k], v =>
      match propGet cur k with
      | some (.varr e p) => propSet cur k (.varr (e ++ [v]) p)
      | _ => propSet cur k (.varr [v] [])
  | cur, k :: k2 :: rest, v =>
      propSet cur k (pushPath (createChild (propGet cur k)) (k2 :: rest) v)

/-- `JsonDatabase.unpush` after validation: a non-creating traversal,
a final value that must be an array, then the downward removal scan.
`none` means nothing matched (or the path failed) and no write
happened. -/
def unpushPath : Value → List String → Value → Option (Value × Nat)
  | _, [], _ => none
  | cur, [k], v =>
      match propGet cur k with
      | some (.varr e p) =>
          let r := spliceRemove v e
          if r.2 > 0 then some (propSet cur k (.varr r.1 p), r.2) else none
      | _ => none
  | cur, k :: k2 :: rest, v =>
      match propGet cur k with
      | some c =>
          if c.truthy && c.isObjType then
            match unpushPath c (k2 :: rest) v with
            | some d => some (propSet cur k d.1, d.2)
            | none => none
          else none
      | none => none

/-- The Turkish acknowledgement sentence accepted by `deleteAll`. -/
def approveTr : String :=
  "Tüm verilerimin silineceğini kabul ediyor ve bu işlemle ilgili tüm sorumluluğun tarafıma ait olduğunu beyan ediyorum."

/-- The English acknowledgement sentence accepted by `deleteAll`. -/
def approveEn : String :=
  "I acknowledge that all my data will be deleted and declare that I am solely responsible for this process."

/-- The body of `JsonDatabase.deleteAll`: `for (const key in data)`
deleting every own key of the document in place. -/
def removeAllKeys : Value → Value
  | .vobj f => f.foldl (fun d p => propDelete d p.1) (.vobj f)
  | v => v

/-! ### The file backend's public operations

Each operation validates the key, reads the persisted document, runs the
path logic above, and (when the source calls `WriteDatabase`) persists
the result through the `JSON.stringify` boundary `jsonNorm`. -/

/-- `JsonDatabase.set(key, value)`: the resulting persisted document. -/
def jsonSet (doc : Value) (key : String) (v : Value) : Value :=
  if validKey key then jsonNorm (setPath doc (splitKey key) v) else doc

/-- `JsonDatabase.get(key)`: the returned value, `none` for the logged
"not found" result. -/
def jsonGet (doc : Value) (key : String) : Option Value :=
  if validKey key then getPath doc (splitKey key) else none

/-- `JsonDatabase.has(key)`. -/
def jsonHas (doc : Value) (key : String) : Bool :=
  validKey key && hasPath doc (splitKey key)

/-- `JsonDatabase.add(key, value)`: the resulting persisted document. -/
def jsonAdd (doc : Value) (key : String) (n : Int) : Value :=
  if validKey key then
    match addPath doc (splitKey key) n with
    | some d => jsonNorm d
    | none => doc
  else doc

/-- `JsonDatabase.subtract(key, value)`: the resulting persisted
document. -/
def jsonSubtract (doc : Value) (key : String) (n : Int) : Value :=
  if validKey key then
    match subtractPath doc (splitKey key) n with
    | some d => jsonNorm d
    | none => doc
  else doc

/-- `JsonDatabase.delete(key)`: the resulting persisted document. -/
def jsonDelete (doc : Value) (key : String) : Value :=
  if validKey key then
    match deletePath doc (splitKey key) with
    | some d => jsonNorm d
    | none => doc
  else doc

/-- `JsonDatabase.push(key, value)`: the resulting persisted document. -/
def jsonPush (doc : Value) (key : String) (v : Value) : Value :=
  if validKey key then jsonNorm (pushPath doc (splitKey key) v) else doc

/-- `JsonDatabase.unpush(key, value)`: the resulting persisted document
together with the number of removed elements. -/
def jsonUnpush (doc : Value) (key : String) (v : Value) : Value × Nat :=
  if validKey key then
    match unpushPath doc (splitKey key) v with
    | some d => (jsonNorm d.1, d.2)
    | none => (doc, 0)
  else (doc, 0)

/-- `JsonDatabase.deleteAll(approve)`: the resulting persisted
document. -/
def jsonDeleteAll (doc : Value) (approve : String) : Value :=
  if approve = approveTr ∨ approve = approveEn then jsonNorm (removeAllKeys doc)
  else doc

/-! ### The remote backend (`MongoDatabase.ts`)

Its persisted state is one record per top-level key, modelled as an
association list from the record key to the stored value. -/

/-- The remote backend's collection: `{ key, value }` records with a
unique `key`. -/
abbrev MDoc : Type := List (String × Value)

/-- `findOne({ key })`. -/
def findRecord (db : MDoc) (k : String) : Option Value := lookupF db k

/-- Saving a document: upsert of the single record. -/
def upsertRecord (db : MDoc) (k : String) (v : Value) : MDoc := setF db k v

/-- `MongoDatabase.setNestedValue(obj, path, value)` as a functional
rebuild of the mutated branch: the final segment is assigned, a missing,
falsy or non-object intermediate is replaced by a fresh object. -/
def setNestedValue : Value → List String → Value → Value
  | obj, [], _ => obj
  | obj, [k], v => propSet obj k v
  | obj, k :: k2 :: rest, v =>
      propSet obj k (setNestedValue (createChild (propGet obj k)) (k2 :: rest) v)

/-- `MongoDatabase.getNestedValue(obj, path)`: every step requires a
non-null value of `typeof "object"` owning the key. -/
def getNestedValue : Value → List String → Option Value
  | cur, [] => some cur
  | cur, k :: rest =>
      if cur.isNull || !cur.isObjType || !propIn cur k then none
      else
        match propGet cur k with
        | some nxt => getNestedValue nxt rest
        | none => none

/-- `MongoDatabase.set(key, value)`: the resulting collection.

The source mutates a wrapper `{ [keys[0]]: updatedValue }` with
`setNestedValue` and then saves `document.value = updatedValue`.  The
recursion only ever writes through the `updatedValue` alias when the
path has a second segment *and* the wrapper's first slot still holds
`updatedValue` itself, i.e. when `updatedValue` is a truthy object; in
every other case (`keys.length === 1`, or a falsy or non-object stored
value, whose wrapper slot is replaced by a fresh `{}`) the mutation lands
only in the discarded wrapper and the saved value is the stale
`updatedValue`.  The embedding reproduces exactly that. -/
def mongoSet (db : MDoc) (key : String) (v : Value) : MDoc :=
  if validKey key then
    let keys := splitKey key
    let k0 := keys.headD ""
    match findRecord db k0 with
    | none =>
        match propGet (setNestedValue (.vobj []) keys v) k0 with
        | some nv => upsertRecord db k0 nv
        | none => db
    | some oldv =>
        let updated := if oldv.truthy then oldv else .vobj []
        let newv :=
          match keys with
          | [] => updated
          | [_] => updated
          | _ :: k2 :: rest =>
              if updated.truthy && updated.isObjType then
                setNestedValue updated (k2 :: rest) v
              else updated
        upsertRecord db k0 newv
  else db

/-- `MongoDatabase.get(key)`: fetch the record named by the first
segment and resolve the remaining path inside a wrapper object. -/
def mongoGet (db : MDoc) (key : String) : Option Value :=
  if validKey key then
    let keys := splitKey key
    let k0 := keys.headD ""
    match findRecord db k0 with
    | none => none
    | some v => getNestedValue (.vobj [(k0, v)]) keys
  else none

/-- `MongoDatabase.has(key)`: the resolved value is not `undefined`. -/
def mongoHas (db : MDoc) (key : String) : Bool :=
  if validKey key then
    let keys := splitKey key
    let k0 := keys.headD ""
    match findRecord db k0 with
    | none => false
    | some v => (getNestedValue (.vobj [(k0, v)]) keys).isSome
  else false

/-- `MongoDatabase.add(key, value)`: the resulting collection, built
from `get` followed by `set`. -/
def mongoAdd (db : MDoc) (key : String) (n : Int) : MDoc :=
  if validKey key then
    match mongoGet db key with
    | none => mongoSet db key (.vnum n)
    | some (.vnum m) => mongoSet db key (.vnum (m + n))
    | some _ => db
  else db

/-- `MongoDatabase.subtract(key, value)`: the resulting collection. -/
def mongoSubtract (db : MDoc) (key : String) (n : Int) : MDoc :=
  if validKey key then
    match mongoGet db key with
    | none => mongoSet db key (.vnum (-n))
    | some (.vnum m) => mongoSet db key (.vnum (m - n))
    | some _ => db
  else db

/-- The traversal of `MongoDatabase.delete`'s nested branch, rebuilding
the branch that the source mutates in place through the `parent` alias:
apply `f` to the value resolved at the path (the same steps as
`getNestedValue`). -/
def modifyAtPath : Value → List String → (Value → Value) → Value
  | cur, [], f => f cur
  | cur, k :: rest, f =>
      if cur.isNull || !cur.isObjType || !propIn cur k then cur
      else
        match propGet cur k with
        | some nxt => propSet cur k (modifyAtPath nxt rest f)
        | none => cur

/-- `MongoDatabase.delete(key)`: a one-segment key deletes the whole
record (`deleteOne`); otherwise the parent path is read-resolved and the
final field deleted when the parent is an object owning it. -/
def mongoDelete (db : MDoc) (key : String) : MDoc :=
  if validKey key then
    let keys := splitKey key
    let k0 := keys.headD ""
    match keys with
    | [] => db
    | [_] => db.filter fun p => p.1 ≠ k0
    | _ =>
        match findRecord db k0 with
        | none => db
        | some v =>
            let obj : Value := .vobj [(k0, v)]
            let parentPath := keys.dropLast
            let finalKey := keys.getLastD ""
            match getNestedValue obj parentPath with
            | some parent =>
                if parent.truthy && parent.isObjType && propIn parent finalKey then
                  match propGet (modifyAtPath obj parentPath
                      (fun w => propDelete w finalKey)) k0 with
                  | some nv => upsertRecord db k0 nv
                  | none => db
                else db
            | none => db
  else db

/-- `MongoDatabase.deleteAll(approve)`: `deleteMany({})` after the
acknowledgement check. -/
def mongoDeleteAll (db : MDoc) (approve : String) : MDoc :=
  if approve = approveTr ∨ approve = approveEn then [] else db

/-- `MongoDatabase.push(key, value)`: the resulting collection.  A
missing or non-array current value is replaced by a fresh one-element
array through `set`; otherwise the fetched array is appended to and
written back through `set`. -/
def mongoPush (db : MDoc) (key : String) (v : Value) : MDoc :=
  if validKey key then
    match mongoGet db key with
    | some (.varr e p) => mongoSet db key (.varr (e ++ [v]) p)
    | _ => mongoSet db key (.varr [v] [])
  else db

/-- `MongoDatabase.pull(key, value)`: the resulting collection and the
number of removed elements; the spliced array is written back through
`set` only when something matched. -/
def mongoPull (db : MDoc) (key : String) (v : Value) : MDoc × Nat :=
  if validKey key then
    match mongoGet db key with
    | some (.varr e p) =>
        let r := spliceRemove v e
        if r.2 > 0 then (mongoSet db key (.varr r.1 p), r.2) else (db, 0)
    | _ => (db, 0)
  else (db, 0)

/-! ### Connection checks -/

/-- What an operation does before touching any data: proceed, or log and
terminate the whole process (`process.exit(0)`). -/
inductive ConnOutcome : Type
  | proceed
  | halt
deriving DecidableEq

/-- `JsonDatabase.CheckConnection` (`JsonDatabase.ts:120`): when
`connected` is false the file backend logs a warning and calls
`process.exit(0)`. -/
def jsonCheckConnection (connected : Bool) : ConnOutcome :=
  if connected then .proceed else .halt

/-- `MongoDatabase.checkConnection` (`MongoDatabase.ts:58`): when not
connected or no model is present, log a warning and `process.exit(0)`. -/
def mongoCheckConnection (connected : Bool) (hasModel : Bool) : ConnOutcome :=
  if connected && hasModel then .proceed else .halt

/-- Is the value an array? -/
def isArrayVal : Value → Bool
  | .varr _ _ => true
  | _ => false

/-- A number, boolean or `null`: the values on which a property read of
the file backend's `get` loop yields `undefined` for every name outside
the primitive's prototype chain (for `null`, a caught `TypeError` on
every name). -/
def isPrimLeaf : Value → Bool
  | .vnum _ => true
  | .vbool _ => true
  | .vnull => true
  | _ => false

/-- The string-keyed own property names of `Object.prototype`
(ECMA-262): the members every plain object inherits, which a JS property
read resolves when the object owns no property of that name. -/
def objectProtoNames : List String :=
  ["constructor", "hasOwnProperty", "isPrototypeOf", "propertyIsEnumerable",
   "toLocaleString", "toString", "valueOf", "__defineGetter__",
   "__defineSetter__", "__lookupGetter__", "__lookupSetter__", "__proto__"]

/-- The string-keyed own property names of `Number.prototype`
(ECMA-262). -/
def numberProtoNames : List String :=
  ["constructor", "toExponential", "toFixed", "toLocaleString",
   "toPrecision", "toString", "valueOf"]

/-- The string-keyed own property names of `Boolean.prototype`
(ECMA-262). -/
def booleanProtoNames : List String :=
  ["constructor", "toString", "valueOf"]

/-- The inherited names a JS property read can resolve on a number or
boolean primitive (its wrapper prototype followed by
`Object.prototype`); a read of any other name yields `undefined`.
`null` has no prototype chain: every read throws. -/
def primChainNames : Value → List String
  | .vnum _ => numberProtoNames ++ objectProtoNames
  | .vbool _ => booleanProtoNames ++ objectProtoNames
  | _ => []

/-- The top-level fields of a (file backend) document value. -/
def objFields : Value → List (String × Value)
  | .vobj f => f
  | _ => []

/-! ### Helper lemmas -/

theorem splitSegs_ne_nil (cs : List Char) : splitSegs cs ≠ [] := by
  cases cs with
  | nil => simp [splitSegs]
  | cons c cs =>
      simp only [splitSegs]
      split
      · simp
      · split
        · simp
        · simp

theorem splitKey_ne_nil (k : String) : splitKey k ≠ [] := by
  simp only [splitKey, ne_eq, List.map_eq_nil_iff]
  exact splitSegs_ne_nil k.data

theorem getPath_append (p : List String) (d : Value) (q : List String) :
    getPath d (p ++ q) = (getPath d p).bind fun w => getPath w q := by
  induction p generalizing d with
  | nil => simp [getPath]
  | cons k rest ih =>
      simp only [List.cons_append, getPath]
      cases propGet d k with
      | none => rfl
      | some nxt => exact ih nxt

theorem propGet_of_isPrimLeaf {w : Value} (h : isPrimLeaf w = true) (k : String) :
    propGet w k = none := by
  cases w <;> simp_all [isPrimLeaf, propGet]

theorem spliceRemove_eq (v : Value) (l : List Value) :
    spliceRemove v l =
      (l.filter (fun e => !elemMatches v e), l.countP (elemMatches v)) := by
  induction l with
  | nil => rfl
  | cons e rest ih =>
      simp only [spliceRemove, ih, List.filter_cons, List.countP_cons]
      cases h : elemMatches v e <;> simp [h]

theorem lookupF_setF_self (f : List (String × Value)) (k : String) (v : Value) :
    lookupF (setF f k v) k = some v := by
  induction f with
  | nil => simp [setF, lookupF]
  | cons q rest ih =>
      obtain ⟨k', v'⟩ := q
      by_cases h : k' = k
      · simp [setF, h, lookupF]
      · simp [setF, h, lookupF, ih]

theorem lookupF_normF (f : List (String × Value)) (k : String) :
    lookupF (jsonNormF f) k = (lookupF f k).map jsonNorm := by
  induction f with
  | nil => simp [jsonNormF, lookupF]
  | cons q rest ih =>
      obtain ⟨k', v'⟩ := q
      by_cases h : k' = k
      · simp [jsonNormF, lookupF, h]
      · simp [jsonNormF, lookupF, h, ih]

theorem normF_eq_self_lookup {f : List (String × Value)}
    (hf : jsonNormF f = f) {k : String} {w : Value}
    (hl : lookupF f k = some w) : jsonNorm w = w := by
  induction f with
  | nil => simp [lookupF] at hl
  | cons q rest ih =>
      obtain ⟨k', v'⟩ := q
      simp only [jsonNormF, List.cons.injEq, Prod.mk.injEq] at hf
      obtain ⟨⟨-, hv⟩, hrest⟩ := hf
      simp only [lookupF] at hl
      by_cases h : k' = k
      · subst h
        rw [if_pos rfl] at hl
        have hw := Option.some.inj hl
        subst hw
        exact hv
      · rw [if_neg h] at hl
        exact ih hrest hl

theorem normL_eq_self_filter {l : List Value} (hl : jsonNormL l = l)
    (p : Value → Bool) : jsonNormL (l.filter p) = l.filter p := by
  induction l with
  | nil => simp [jsonNormL]
  | cons w rest ih =>
      simp only [jsonNormL, List.cons.injEq] at hl
      obtain ⟨hw, hrest⟩ := hl
      cases h : p w with
      | true => simp [List.filter_cons, h, jsonNormL, hw, ih hrest]
      | false => simp [List.filter_cons, h, ih hrest]

theorem normF_setF (f : List (String × Value)) (k : String) (v : Value) :
    jsonNormF (setF f k v) = setF (jsonNormF f) k (jsonNorm v) := by
  induction f with
  | nil => simp [setF, jsonNormF]
  | cons q rest ih =>
      obtain ⟨k', v'⟩ := q
      by_cases h : k' = k
      · simp [setF, h, jsonNormF]
      · simp [setF, h, jsonNormF, ih]

/-! ### The claims -/

/-- C1: the claim says the file backend and the remote backend produce
identical observable results for every operation on every stored state.
They do not: from the same abstract state `{a: 1}`, `set("a", 2)` leaves
the remote record at `1` (in `MongoDatabase.set` the wrapper slot
`obj[keys[0]]` is reassigned but the stale `updatedValue` alias is what
gets saved), while the file backend stores `2`; and `get("a.0")` on
`{a: "hi"}` returns `"h"` from the file backend but "not found" from the
remote backend (`getNestedValue` rejects non-`object` intermediates that
plain property access traverses). -/
theorem c1_backends_diverge_on_set :
    jsonSet (.vobj [("a", .vnum 1)]) "a" (.vnum 2) = .vobj [("a", .vnum 2)]
    ∧ mongoSet [("a", .vnum 1)] "a" (.vnum 2) = [("a", .vnum 1)]
    ∧ jsonGet (jsonSet (.vobj [("a", .vnum 1)]) "a" (.vnum 2)) "a" = some (.vnum 2)
    ∧ mongoGet (mongoSet [("a", .vnum 1)] "a" (.vnum 2)) "a" = some (.vnum 1)
    ∧ jsonGet (.vobj [("a", .vstr "hi")]) "a.0" = some (.vstr "h")
    ∧ mongoGet [("a", .vstr "hi")] "a.0" = none :=
  ⟨rfl, rfl, rfl, rfl, rfl, rfl⟩

/-- C3 (counterexample): the claim says `get` yields the Absent result
whenever an intermediate path value is not an `Object`, naming strings
and arrays among the examples.  In the file backend a string intermediate
is traversed by index — `get("a.0")` on `{a: "hi"}` returns `"h"` — and
an array intermediate by element — `get("a.0")` on `{a: [5]}` returns
`5`. -/
theorem c3_counterexample_string_intermediate :
    jsonGet (.vobj [("a", .vstr "hi")]) "a.0" = some (.vstr "h")
    ∧ jsonGet (.vobj [("a", .varr [.vnum 5] [])]) "a.0" = some (.vnum 5) :=
  ⟨rfl, rfl⟩

/-- C3 (amended): the file backend's `get` returns the Absent result
(`none`, never an error) when some value on the path is a number or
boolean and the next segment is not one of the primitive's inherited
member names, when some value on the path is `null` (the `TypeError` is
caught), and when a segment outside `Object.prototype`'s member names is
read from a plain object that does not own it.  String and array
intermediates are traversed by plain property access, and inherited
member names resolve through the prototype chain rather than yielding
Absent. -/
theorem c3_absent_on_primitive_intermediate (d : Value) (p q : List String) (k : String) :
    (∀ w, getPath d p = some w → isPrimLeaf w = true → k ∉ primChainNames w →
      getPath d (p ++ k :: q) = none)
    ∧ (∀ f, getPath d p = some (.vobj f) → lookupF f k = none → k ∉ objectProtoNames →
      getPath d (p ++ k :: q) = none) := by
  constructor
  · intro w hw hprim _
    rw [getPath_append, hw]
    simp [getPath, propGet_of_isPrimLeaf hprim k]
  · intro f hw hnone _
    rw [getPath_append, hw]
    simp [getPath, propGet, hnone]

/-- Witness for the amended C3 at a concrete input: in `{a: 5}` the
number `5` blocks the further segment `"b"` (not an inherited name),
and the absent top-level segment `"b"` is Absent as well. -/
theorem c3_absent_on_primitive_intermediate_witness :
    getPath (.vobj [("a", .vnum 5)]) ["a"] = some (.vnum 5)
    ∧ getPath (.vobj [("a", .vnum 5)]) ["a", "b"] = none
    ∧ getPath (.vobj [("a", .vnum 5)]) ["b"] = none :=
  ⟨rfl,
    (c3_absent_on_primitive_intermediate (.vobj [("a", .vnum 5)]) ["a"] [] "b").1
      (.vnum 5) rfl rfl (by decide),
    (c3_absent_on_primitive_intermediate (.vobj [("a", .vnum 5)]) [] [] "b").2
      [("a", .vnum 5)] rfl rfl (by decide)⟩

/-- C4 (counterexample): the claim says read-resolution never traverses
into arrays by numeric segment, so `get("arr.0")` should be Absent and
`has("arr.0")` false on the stored array `[5]`.  Both traverse the
array: the element is returned and reported present, and
`set("arr.0", v)` replaces the element in place. -/
theorem c4_counterexample_array_traversal :
    jsonGet (.vobj [("arr", .varr [.vnum 5] [])]) "arr.0" = some (.vnum 5)
    ∧ jsonHas (.vobj [("arr", .varr [.vnum 5] [])]) "arr.0" = true
    ∧ jsonSet (.vobj [("arr", .varr [.vnum 5, .vnum 6] [])]) "arr.0" (.vnum 9)
        = .vobj [("arr", .varr [.vnum 9, .vnum 6] [])] :=
  ⟨rfl, rfl, rfl⟩

/-- C4 (amended): arrays are JS objects, so path resolution does
traverse into them by canonical numeric index segments: for a stored
array, `get` returns the element, `has` reports it present, and `set`
replaces the element in place. -/
theorem c4_numeric_segments_traverse_arrays
    (f : List (String × Value)) (kArr s : String) (elems : List Value)
    (i : Nat) (v : Value)
    (ha : lookupF f kArr = some (.varr elems []))
    (hs : parseIndex s = some i) (hi : i < elems.length) :
    getPath (.vobj f) [kArr, s] = some (elems.get ⟨i, hi⟩)
    ∧ hasPath (.vobj f) [kArr, s] = true
    ∧ setPath (.vobj f) [kArr, s] v = .vobj (setF f kArr (.varr (elems.set i v) [])) := by
  have hlen : s ≠ "length" := by
    intro h
    rw [h] at hs
    have hnone : parseIndex "length" = none := rfl
    rw [hnone] at hs
    exact Option.noConfusion hs
  refine ⟨?_, ?_, ?_⟩
  · simp only [getPath, propGet, ha, if_neg hlen, hs]
    rw [dif_pos hi]
  · simp only [hasPath, Value.isNull, Value.isObjType, Bool.not_true, Bool.not_false,
      propIn, propGet, ha, Option.isSome_some, if_neg hlen, hs,
      decide_eq_true_eq]
    simp [hlen, hi, hs, propIn]
  · simp only [setPath, createChild, propGet, ha, Value.truthy, Value.isObjType,
      Bool.and_self, if_pos, propSet, if_neg hlen, hs]
    rw [if_pos hi]

/-- Witness for the amended C4 at a concrete input: the stored array
`[5, 6]` under `"arr"`, index segment `"0"`. -/
theorem c4_numeric_segments_traverse_arrays_witness :
    lookupF [("arr", Value.varr [.vnum 5, .vnum 6] [])] "arr"
        = some (.varr [.vnum 5, .vnum 6] [])
    ∧ parseIndex "0" = some 0
    ∧ getPath (.vobj [("arr", .varr [.vnum 5, .vnum 6] [])]) ["arr", "0"] = some (.vnum 5)
    ∧ setPath (.vobj [("arr", .varr [.vnum 5, .vnum 6] [])]) ["arr", "0"] (.vnum 9)
        = .vobj (setF [("arr", Value.varr [.vnum 5, .vnum 6] [])] "arr"
            (.varr [.vnum 9, .vnum 6] [])) := by
  refine ⟨rfl, rfl, ?_, ?_⟩
  · exact (c4_numeric_segments_traverse_arrays [("arr", .varr [.vnum 5, .vnum 6] [])]
      "arr" "0" [.vnum 5, .vnum 6] 0 (.vnum 9) rfl rfl (by decide)).1
  · exact (c4_numeric_segments_traverse_arrays [("arr", .varr [.vnum 5, .vnum 6] [])]
      "arr" "0" [.vnum 5, .vnum 6] 0 (.vnum 9) rfl rfl (by decide)).2.2

/-- C5: the claim describes the removal scan of `pull`/`unpush` and says
the matching elements are removed from the stored array.  The scan and
the match predicate are as claimed, and the file backend persists the
result, but `MongoDatabase.pull` on a one-segment key persists nothing:
it splices a freshly fetched copy and writes it back through `set`,
whose stale-alias save discards the new array, so the stored record
keeps all elements (while the log reports a successful removal). -/
theorem c5_mongo_pull_not_persisted :
    mongoPull [("tags", .varr [.vnum 1, .vnum 2] [])] "tags" (.vnum 1)
      = ([("tags", .varr [.vnum 1, .vnum 2] [])], 1)
    ∧ jsonUnpush (.vobj [("tags", .varr [.vnum 1, .vnum 2] [])]) "tags" (.vnum 1)
      = (.vobj [("tags", .varr [.vnum 2] [])], 1)
    ∧ jsonUnpush (.vobj [("arr", .varr [.vobj [("a", .vnum 1), ("b", .vnum 2)]] [])])
        "arr" (.vobj [("a", .vnum 1)])
      = (.vobj [("arr", .varr [] [])], 1) :=
  ⟨rfl, rfl, rfl⟩

/-- C6: the claim says `add(k, n)` on an absent key stores `n` in both
backends (equivalently to `set(k, n)`).  With the remote record
`a = 5`, the key `"a.b"` is absent, yet `MongoDatabase.add("a.b", 1)`
leaves the collection unchanged: it delegates to `set`, whose wrapper
slot for the non-object stored value is replaced by a fresh object while
the stale `updatedValue` alias is saved.  The file backend stores
`{a: {b: 1}}` as the claim describes. -/
theorem c6_mongo_add_absent_not_stored :
    mongoGet [("a", .vnum 5)] "a.b" = none
    ∧ mongoAdd [("a", .vnum 5)] "a.b" 1 = [("a", .vnum 5)]
    ∧ jsonAdd (.vobj [("a", .vnum 5)]) "a.b" 1 = .vobj [("a", .vobj [("b", .vnum 1)])] :=
  ⟨rfl, rfl, rfl⟩

/-- C8 (counterexample): the claim says only the remote backend halts
the process when an operation runs before `connect()`, while the file
backend self-heals and proceeds.  `JsonDatabase.CheckConnection` also
calls `process.exit(0)` when not connected. -/
theorem c8_counterexample_file_backend_halts :
    jsonCheckConnection false = ConnOutcome.halt
    ∧ mongoCheckConnection false true = ConnOutcome.halt :=
  ⟨rfl, rfl⟩

/-- C8 (amended): both backends fail fast — an operation invoked before
`connect()` logs a warning and halts the whole process in the file
backend exactly when `connected` is false, and in the remote backend
exactly when `connected` is false or no model is present.  The file
backend's self-healing (recreating a missing file, reading a
missing/corrupt file as an empty document) happens in `connect()` and
`ReadDatabase`, not on unconnected operations. -/
theorem c8_both_backends_halt_unconnected (c m : Bool) :
    (jsonCheckConnection c = ConnOutcome.halt ↔ c = false)
    ∧ (mongoCheckConnection c m = ConnOutcome.halt ↔ c = false ∨ m = false) := by
  cases c <;> cases m <;> decide

/-- Core of C2: when no proper nonempty path prefix resolves to an
array, write-resolving a path and reading it back through the
`JSON.stringify` boundary recovers the written value. -/
theorem setPath_getPath_norm :
    ∀ (ks : List String), ks ≠ [] →
      ∀ (f : List (String × Value)) (v : Value), jsonNorm v = v →
        (∀ i, 0 < i → i < ks.length →
          ∀ w, getPath (.vobj f) (ks.take i) = some w → isArrayVal w = false) →
        getPath (jsonNorm (setPath (.vobj f) ks v)) ks = some v := by
  intro ks
  induction ks with
  | nil => intro h; exact absurd rfl h
  | cons k rest ih =>
      intro _ f v hv hpre
      cases rest with
      | nil =>
          simp only [setPath, propSet, jsonNorm, getPath, propGet]
          rw [lookupF_normF, lookupF_setF_self]
          simp [getPath, hv]
      | cons k2 rest2 =>
          obtain ⟨g, hg, hgsrc⟩ :
              ∃ g, createChild (propGet (.vobj f) k) = .vobj g ∧
                (g = [] ∨ lookupF f k = some (.vobj g)) := by
            cases hc : lookupF f k with
            | none => exact ⟨[], by simp [createChild, propGet, hc], Or.inl rfl⟩
            | some c =>
                by_cases ht : (c.truthy && c.isObjType) = true
                · have harr : isArrayVal c = false := by
                    have h1 : getPath (.vobj f) ((k :: k2 :: rest2).take 1) = some c := by
                      simp [getPath, propGet, hc]
                    exact hpre 1 (by omega) (by simp) c h1
                  cases c with
                  | vobj g =>
                      exact ⟨g, by simp [createChild, propGet, hc, ht], Or.inr rfl⟩
                  | varr e p => simp [isArrayVal] at harr
                  | vnull => simp [Value.truthy] at ht
                  | vstr s => simp [Value.isObjType] at ht
                  | vnum n => simp [Value.isObjType] at ht
                  | vbool b => simp [Value.isObjType] at ht
                · exact ⟨[], by simp [createChild, propGet, hc, ht], Or.inl rfl⟩
          simp only [setPath]
          rw [hg]
          simp only [propSet, jsonNorm, getPath, propGet]
          rw [lookupF_normF, lookupF_setF_self]
          simp only [Option.map_some']
          refine ih (by simp) g v hv ?_
          intro i hi0 hilen w hw
          cases i with
          | zero => omega
          | succ j =>
              simp only [List.take] at hw
              rcases hgsrc with rfl | hsrc
              · simp [getPath, propGet, lookupF] at hw
              · have houter :
                    getPath (.vobj f) ((k :: k2 :: rest2).take (j + 2)) = some w := by
                  simp only [List.take, getPath, propGet, hsrc]
                  exact hw
                refine hpre (j + 2) (by omega) ?_ w houter
                simp only [List.length_cons] at hilen ⊢
                omega

/-- C2 (counterexample): the claim asks that `set(k, v)` followed by
`get(k)` return `v` for every valid key.  With the stored document
`{a: [1]}` and the key `"a.b"`, the write lands as an expando property
on the array, `JSON.stringify` drops it, and `get("a.b")` returns the
Absent result instead of `7`. -/
theorem c2_counterexample_array_prefix :
    validKey "a.b" = true
    ∧ jsonGet (jsonSet (.vobj [("a", .varr [.vnum 1] [])]) "a.b" (.vnum 7)) "a.b" = none :=
  ⟨rfl, rfl⟩

/-- C2 (amended): for every valid non-empty dotted key and every
JSON-representable value (no array expando properties), if no proper
nonempty prefix of the key's path currently resolves to an array and no
path segment is the name `"__proto__"` (whose inherited accessor
hijacks the assignment instead of creating an own property), then
`set(k, v)` followed by `get(k)` returns a value structurally equal to
`v` in the file backend.  The segment hypothesis pins the inputs on
which the embedded own-property write is the source's behaviour: every
other inherited member of `Object.prototype` is a writable data
property, which an assignment shadows with an own property, and which
the write-resolve guard replaces with a fresh object exactly as it
replaces `undefined` (both fail `typeof current[k] === "object"`). -/
theorem c2_set_then_get_roundtrip (f : List (String × Value)) (key : String) (v : Value)
    (hk : validKey key = true) (hv : isJsonNormal v)
    (_hseg : ∀ s ∈ splitKey key, s ≠ "__proto__")
    (hpre : ∀ i, 0 < i → i < (splitKey key).length →
        ∀ w, getPath (.vobj f) ((splitKey key).take i) = some w → isArrayVal w = false) :
    jsonGet (jsonSet (.vobj f) key v) key = some v := by
  unfold jsonGet jsonSet
  rw [if_pos hk, if_pos hk]
  exact setPath_getPath_norm (splitKey key) (splitKey_ne_nil key) f v hv hpre

/-- Witness for the amended C2 at a concrete input: key `"user"`, value
`21`, empty starting document. -/
theorem c2_set_then_get_roundtrip_witness :
    validKey "user" = true
    ∧ jsonGet (jsonSet (.vobj []) "user" (.vnum 21)) "user" = some (.vnum 21) := by
  refine ⟨rfl, ?_⟩
  refine c2_set_then_get_roundtrip [] "user" (.vnum 21) rfl rfl (by decide) ?_
  intro i h1 h2 w hw
  have hlen : (splitKey "user").length = 1 := rfl
  omega

/-- The `for (const key in data)` loop of `deleteAll` removes every own
key, leaving the empty document. -/
theorem removeAll_empties (f : List (String × Value)) :
    removeAllKeys (.vobj f) = .vobj [] := by
  suffices h : ∀ (ks g : List (String × Value)),
      (∀ q ∈ g, ∃ p ∈ ks, q.1 = p.1) →
      ks.foldl (fun d p => propDelete d p.1) (.vobj g) = .vobj [] by
    exact h f f fun q hq => ⟨q, hq, rfl⟩
  intro ks
  induction ks with
  | nil =>
      intro g hg
      cases g with
      | nil => simp
      | cons q rest =>
          obtain ⟨p, hp, -⟩ := hg q (by simp)
          exact absurd hp (List.not_mem_nil p)
  | cons p ks ih =>
      intro g hg
      simp only [List.foldl_cons]
      have hd : propDelete (.vobj g) p.1 = .vobj (delF g p.1) := rfl
      rw [hd]
      apply ih
      intro q hq
      have hq' : q ∈ g ∧ q.1 ≠ p.1 := by
        simpa [delF] using List.mem_filter.mp hq
      obtain ⟨p', hp', he⟩ := hg q hq'.1
      rcases List.mem_cons.mp hp' with rfl | hmem
      · exact absurd he hq'.2
      · exact ⟨p', hmem, he⟩

/-- C7: `deleteAll(approve)` erases every top-level record in both
backends exactly when `approve` is one of the two fixed literal
acknowledgement sentences (the Turkish or the English one); any other
string is rejected as an invalid approval and the stored state is
completely unchanged. -/
theorem c7_delete_all_requires_acknowledgement
    (f : List (String × Value)) (db : MDoc) (approve : String) :
    ((approve = approveTr ∨ approve = approveEn) →
        jsonDeleteAll (.vobj f) approve = .vobj [] ∧ mongoDeleteAll db approve = [])
    ∧ (approve ≠ approveTr → approve ≠ approveEn →
        jsonDeleteAll (.vobj f) approve = .vobj f ∧ mongoDeleteAll db approve = db) := by
  constructor
  · intro h
    constructor
    · unfold jsonDeleteAll
      rw [if_pos h, removeAll_empties]
      rfl
    · unfold mongoDeleteAll
      rw [if_pos h]
  · intro h1 h2
    have h : ¬(approve = approveTr ∨ approve = approveEn) := by tauto
    constructor
    · unfold jsonDeleteAll
      rw [if_neg h]
    · unfold mongoDeleteAll
      rw [if_neg h]

/-- Witness for C7 at concrete inputs: the English sentence erases the
document `{a: 1}`, the string `"no"` leaves it unchanged. -/
theorem c7_delete_all_requires_acknowledgement_witness :
    (approveEn = approveTr ∨ approveEn = approveEn)
    ∧ jsonDeleteAll (.vobj [("a", .vnum 1)]) approveEn = .vobj []
    ∧ jsonDeleteAll (.vobj [("a", .vnum 1)]) "no" = .vobj [("a", .vnum 1)] := by
  refine ⟨Or.inr rfl, ?_, ?_⟩
  · exact ((c7_delete_all_requires_acknowledgement [("a", .vnum 1)] [] approveEn).1
      (Or.inr rfl)).1
  · exact ((c7_delete_all_requires_acknowledgement [("a", .vnum 1)] [] "no").2
      (by decide) (by decide)).1

/-- C9: the downward splice loop of `unpush`/`pull` removes matching
elements without permuting the survivors: the resulting array the file
backend stores is the original array filtered by the match predicate,
and in particular a sublist of the original (same relative order). -/
theorem c9_pull_preserves_survivor_order
    (d : List (String × Value)) (k : String) (a : List Value) (v : Value)
    (hk : validKey k = true) (hs : splitKey k = [k])
    (ha : lookupF d k = some (.varr a []))
    (hn : isJsonNormal (.vobj d)) :
    ∃ a2, lookupF (objFields (jsonUnpush (.vobj d) k v).1) k = some (.varr a2 [])
      ∧ a2.Sublist a := by
  have hdn : jsonNormF d = d := by
    have h1 : Value.vobj (jsonNormF d) = Value.vobj d := hn
    exact Value.vobj.inj h1
  have hna : jsonNorm (.varr a []) = .varr a [] := normF_eq_self_lookup hdn ha
  have hla : jsonNormL a = a := by
    have h1 : Value.varr (jsonNormL a) [] = Value.varr a [] := hna
    exact (Value.varr.inj h1).1
  unfold jsonUnpush
  rw [if_pos hk, hs]
  have hup : unpushPath (.vobj d) [k] v =
      (let r := spliceRemove v a
       if r.2 > 0 then some (propSet (.vobj d) k (.varr r.1 []), r.2) else none) := by
    simp [unpushPath, propGet, ha]
  rw [hup, spliceRemove_eq]
  by_cases hc : a.countP (elemMatches v) > 0
  · simp only [hc, if_pos]
    refine ⟨a.filter (fun e => !elemMatches v e), ?_, List.filter_sublist a⟩
    have hnf : jsonNorm (propSet (.vobj d) k
        (.varr (a.filter fun e => !elemMatches v e) [])) =
        .vobj (setF d k (.varr (a.filter fun e => !elemMatches v e) [])) := by
      show Value.vobj (jsonNormF (setF d k _)) = _
      rw [normF_setF, hdn]
      show _ = Value.vobj (setF d k (.varr (a.filter fun e => !elemMatches v e) []))
      congr 2
      show Value.varr (jsonNormL (a.filter fun e => !elemMatches v e)) [] = _
      rw [normL_eq_self_filter hla]
    simp only [hnf, objFields]
    exact lookupF_setF_self d k _
  · simp only [hc, if_neg, objFields]
    exact ⟨a, ha, List.Sublist.refl a⟩

/-- Witness for C9 at a concrete input: pulling `2` from the stored
array `[1, 2, 3, 2]` leaves the survivors `[1, 3]` in order. -/
theorem c9_pull_preserves_survivor_order_witness :
    validKey "tags" = true
    ∧ lookupF [("tags", Value.varr [.vnum 1, .vnum 2, .vnum 3, .vnum 2] [])] "tags"
        = some (.varr [.vnum 1, .vnum 2, .vnum 3, .vnum 2] [])
    ∧ ∃ a2,
        lookupF (objFields (jsonUnpush
            (.vobj [("tags", .varr [.vnum 1, .vnum 2, .vnum 3, .vnum 2] [])])
            "tags" (.vnum 2)).1) "tags" = some (.varr a2 [])
        ∧ a2.Sublist [.vnum 1, .vnum 2, .vnum 3, .vnum 2] :=
  ⟨rfl, rfl,
    c9_pull_preserves_survivor_order
      [("tags", .varr [.vnum 1, .vnum 2, .vnum 3, .vnum 2] [])]
      "tags" [.vnum 1, .vnum 2, .vnum 3, .vnum 2] (.vnum 2) rfl rfl rfl rfl⟩

/-- C10: key validation rejects exactly the empty string — every
non-empty key passes, and empty segments produced by dots (here the key
`"."`, whose two segments are both `""`) are treated as ordinary field
names by path resolution, storable and readable like any other. -/
theorem c10_only_empty_key_rejected (k : String) (v : Value) :
    (validKey k = true ↔ k ≠ "")
    ∧ (isJsonNormal v →
        jsonSet (.vobj []) "." v = .vobj [("", .vobj [("", v)])]
        ∧ jsonGet (jsonSet (.vobj []) "." v) "." = some v) := by
  constructor
  · constructor
    · intro h he
      subst he
      rw [show validKey "" = false from rfl] at h
      exact Bool.noConfusion h
    · intro h
      have : ¬ (k.isEmpty = true) := fun he => h ((String.isEmpty_iff k).mp he)
      simp [validKey, this]
  · intro hv
    have hset : jsonSet (.vobj []) "." v = .vobj [("", .vobj [("", v)])] := by
      unfold jsonSet
      rw [if_pos (show validKey "." = true from rfl)]
      show jsonNorm (.vobj [("", .vobj [("", v)])]) = _
      simp only [jsonNorm, jsonNormF]
      rw [hv]
    refine ⟨hset, ?_⟩
    rw [hset]
    rfl

/-- Witness for C10 at concrete inputs: the key `"x"` is accepted, and
the all-empty-segments key `"."` stores and returns `3`. -/
theorem c10_only_empty_key_rejected_witness :
    validKey "x" = true
    ∧ jsonSet (.vobj []) "." (.vnum 3) = .vobj [("", .vobj [("", .vnum 3)])]
    ∧ jsonGet (jsonSet (.vobj []) "." (.vnum 3)) "." = some (.vnum 3) := by
  refine ⟨(c10_only_empty_key_rejected "x" (.vnum 3)).1.mpr (by decide), ?_, ?_⟩
  · exact ((c10_only_empty_key_rejected "x" (.vnum 3)).2 rfl).1
  · exact ((c10_only_empty_key_rejected "x" (.vnum 3)).2 rfl).2

end SoftLance
